import Mathlib

/-!
Verification of `camaptools/Dataset.py` (CAMAP dataset-construction pipeline).

Shallow embedding of the parts of the code the claims are about:
machine floats are idealised as `ℚ` (exact arithmetic) or `ℝ` (where the
code applies `np.log`), Python dicts/lists become Lean lists, fallible
code returns `Option`.  Each definition carries a note pointing at the
source lines it embeds.
-/

namespace CAMAP

/-! ## Loader option handling (`Dataset.load_peptides_options`, lines 103-111)

The Python code:
```
if self.max_bs_or_rank < 100 and var != 'Rank' and var != 'Rank_NP':
    var = 'Rank'
elif self.max_bs_or_rank >= 100 and var != 'nM':
    var = 'nM'
else:
    assert var in ['nM', 'Rank', 'Rank_NP']
self.var = var
```
`none` models the `AssertionError` of the final branch. -/

def effectiveVar (maxBsOrRank : ℚ) (v : String) : Option String :=
  if maxBsOrRank < 100 ∧ v ≠ "Rank" ∧ v ≠ "Rank_NP" then some "Rank"
  else if 100 ≤ maxBsOrRank ∧ v ≠ "nM" then some "nM"
  else if v = "nM" ∨ v = "Rank" ∨ v = "Rank_NP" then some v
  else none

/-! ## Per-peptide retention (`Dataset._load_peptides`, lines 182-184)

```
mhc_scores = {al:mhc_scores[al] for al in mhc_scores if al in self.alleles}
bs_or_rank = min([sc[self.var] for sc in mhc_scores.values()])
if bs_or_rank < self.max_bs_or_rank:
    ...  # peptide processed further (retained)
```
Alleles are numbered; an MHC score table is a list of (allele, score)
pairs.  `min` of an empty list raises `ValueError`, modelled by `none`
(via `List.min?`). -/

def acceptedScores (alleles : List ℕ) (mhc : List (ℕ × ℚ)) : List ℚ :=
  (mhc.filter (fun p => decide (p.1 ∈ alleles))).map (fun p => p.2)

def peptideRetained (alleles : List ℕ) (mhc : List (ℕ × ℚ)) (threshold : ℚ) :
    Option Bool :=
  (acceptedScores alleles mhc).min?.map (fun m => decide (m < threshold))

/-! ## Post-merge source-overlap filter (`Dataset.load_peptides`, lines 141-152)

```
self.source_transcripts = set([t for t, v in source_tr_dct.items() if v])
rem = set()
for pep in list(pepdict_nonsource.keys()):
    p = pep[0]
    if peptr[p].intersection(self.source_transcripts):
        del pepdict_nonsource[pep]
        del pepexpr[pep]
        rem.add(p)
for p in rem:
    del peptr[p]
```
A nonsource key `(pep, i)` is kept exactly when the transcript set of its
peptide does not meet the source-transcript set.  Peptides are numbered,
keys are pairs (peptide, context-index), `peptr` maps a peptide to its
transcript list, `src` is the source-transcript set. -/

def filterNonsource (ns : List (ℕ × ℕ)) (peptr : ℕ → List ℕ) (src : List ℕ) :
    List (ℕ × ℕ) :=
  ns.filter (fun k => ((peptr k.1).filter (fun t => decide (t ∈ src))).isEmpty)

theorem filter_idem (p : α → Bool) (l : List α) :
    List.filter p (List.filter p l) = List.filter p l := by
  induction l with
  | nil => rfl
  | cons a t ih =>
    by_cases h : p a = true
    · simp [List.filter_cons, h, ih]
    · simp only [Bool.not_eq_true] at h
      simp [List.filter_cons, h, ih]

/-- Claim C10: `load_peptides_options` may silently override the requested
metric: with `max_bs_or_rank < 100` and a metric other than `Rank`/`Rank_NP`
the effective metric becomes `Rank`; with `max_bs_or_rank ≥ 100` and a
metric other than `nM` it becomes `nM` (in particular `Rank_NP` with a
threshold ≥ 100 is overridden to `nM`); only when neither condition fires
is the requested metric validated and kept. -/
theorem claimC10 (m : ℚ) (v : String) :
    (m < 100 → v ≠ "Rank" → v ≠ "Rank_NP" → effectiveVar m v = some "Rank")
    ∧ (100 ≤ m → v ≠ "nM" → effectiveVar m v = some "nM")
    ∧ (100 ≤ m → effectiveVar m "Rank_NP" = some "nM")
    ∧ (¬(m < 100 ∧ v ≠ "Rank" ∧ v ≠ "Rank_NP") → ¬(100 ≤ m ∧ v ≠ "nM") →
        effectiveVar m v = some v) := by
  refine ⟨?_, ?_, ?_, ?_⟩
  · intro h1 h2 h3
    simp [effectiveVar, h1, h2, h3]
  · intro h1 h2
    have hnot : ¬(m < 100 ∧ v ≠ "Rank" ∧ v ≠ "Rank_NP") := by
      rintro ⟨hlt, -, -⟩
      exact absurd h1 (not_le.2 hlt)
    rw [effectiveVar, if_neg hnot, if_pos (⟨h1, h2⟩ : 100 ≤ m ∧ v ≠ "nM")]
  · intro h1
    have hnot : ¬(m < 100 ∧ "Rank_NP" ≠ "Rank" ∧ "Rank_NP" ≠ "Rank_NP") := by
      rintro ⟨-, -, h⟩
      exact h rfl
    have hne : ("Rank_NP" : String) ≠ "nM" := by decide
    rw [effectiveVar, if_neg hnot, if_pos (⟨h1, hne⟩ : 100 ≤ m ∧ ("Rank_NP" : String) ≠ "nM")]
  · intro h1 h2
    push_neg at h1 h2
    rcases lt_or_le m 100 with hm | hm
    · rcases Classical.em (v = "Rank") with hv | hv
      · simp [effectiveVar, hv, hm.not_le]
      · have hv2 := h1 hm hv
        simp [effectiveVar, hv2, hm.not_le]
    · have hv := h2 hm
      have hnot : ¬(m < 100 ∧ v ≠ "Rank" ∧ v ≠ "Rank_NP") := by
        rintro ⟨hlt, -, -⟩
        exact absurd hm (not_le.2 hlt)
      have hnot2 : ¬(100 ≤ m ∧ v ≠ "nM") := by
        rintro ⟨-, h⟩
        exact h hv
      simp [effectiveVar, hv, not_lt.2 hm]

/-- Witness for C10 at concrete inputs: a `Rank_NP` request with threshold
1250 is overridden to `nM`; an `nM` request with threshold 50 is overridden
to `Rank`; an `nM` request with threshold 1250 is validated and kept. -/
theorem claimC10_witness :
    effectiveVar 1250 "Rank_NP" = some "nM"
    ∧ effectiveVar 50 "nM" = some "Rank"
    ∧ effectiveVar 1250 "nM" = some "nM" := by
  refine ⟨(claimC10 1250 "Rank_NP").2.2.1 (by norm_num),
    (claimC10 50 "nM").1 (by norm_num) (by decide) (by decide),
    (claimC10 1250 "nM").2.2.2 ?_ ?_⟩
  · rintro ⟨h, -, -⟩
    norm_num at h
  · rintro ⟨-, h⟩
    exact h rfl

/-- Claim C7 counterexample: a peptide whose minimum accepted-allele score
equals the threshold (1250 = 1250) is NOT retained: line 184 tests
`bs_or_rank < self.max_bs_or_rank` strictly, so equality is rejected,
contradicting the claim that such a peptide is retained. -/
theorem claimC7_counterexample :
    peptideRetained [0] [(0, 1250)] 1250 = some false := by decide

/-- Claim C7 (amended): a peptide with binding data over accepted alleles
is retained iff its minimum accepted score is strictly below the
threshold; a minimum exactly equal to the threshold is rejected. -/
theorem claimC7_amended (alleles : List ℕ) (mhc : List (ℕ × ℚ))
    (threshold mn : ℚ) (hmin : (acceptedScores alleles mhc).min? = some mn) :
    peptideRetained alleles mhc threshold = some (decide (mn < threshold))
    ∧ (mn = threshold → peptideRetained alleles mhc threshold = some false) := by
  constructor
  · simp [peptideRetained, hmin]
  · intro he
    simp [peptideRetained, hmin, he]

/-- Witness for the amended C7: with one accepted allele scoring 3 and
threshold 1250, the minimum is 3 and the peptide is retained. -/
theorem claimC7_witness :
    peptideRetained [0] [(0, 3), (1, 7)] 1250 = some (decide ((3 : ℚ) < 1250)) :=
  (claimC7_amended [0] [(0, 3), (1, 7)] 1250 3 (by decide)).1

/-- Claim C2: after the post-merge filter of `load_peptides`, every
remaining nonsource key has a transcript set disjoint from the final
source-transcript set, and re-running the same filter removes nothing
(the filter is idempotent). -/
theorem claimC2 (ns : List (ℕ × ℕ)) (peptr : ℕ → List ℕ) (src : List ℕ) :
    (∀ k ∈ filterNonsource ns peptr src, ∀ t ∈ peptr k.1, t ∉ src)
    ∧ filterNonsource (filterNonsource ns peptr src) peptr src
        = filterNonsource ns peptr src := by
  constructor
  · intro k hk t ht hts
    have hcond := (List.mem_filter.1 hk).2
    have hempty : ((peptr k.1).filter (fun t => decide (t ∈ src))) = [] := by
      simpa [List.isEmpty_iff] using hcond
    have : t ∈ ((peptr k.1).filter (fun t => decide (t ∈ src))) :=
      List.mem_filter.2 ⟨ht, by simpa using hts⟩
    rw [hempty] at this
    exact absurd this (List.not_mem_nil t)
  · exact filter_idem _ ns

/-- Witness for C2 at a concrete input: peptide 1 (transcripts [5]) hits
source transcript 5 and is removed, peptide 2 (transcripts [6]) survives,
its transcript 6 is not a source transcript, and the filter is idempotent
on the output. -/
theorem claimC2_witness :
    (6 ∉ [5])
    ∧ filterNonsource
        (filterNonsource [(1, 0), (2, 0)] (fun p => if p = 1 then [5] else [6]) [5])
        (fun p => if p = 1 then [5] else [6]) [5]
        = filterNonsource [(1, 0), (2, 0)] (fun p => if p = 1 then [5] else [6]) [5] :=
  ⟨(claimC2 [(1, 0), (2, 0)] (fun p => if p = 1 then [5] else [6]) [5]).1
      (2, 0) (by decide) 6 (by decide),
    (claimC2 [(1, 0), (2, 0)] (fun p => if p = 1 then [5] else [6]) [5]).2⟩

/-! ## Binding-score transform (`Dataset._load_peptides`, line 203)

```
pepbs[pep] = 1 - np.log(bs_or_rank) / np.log(50000) if self.var == 'nM' else bs_or_rank
```
The float computation is idealised over `ℝ` with the exact natural
logarithm. -/

noncomputable def bindingScore (v : String) (raw : ℝ) : ℝ :=
  if v = "nM" then 1 - Real.log raw / Real.log 50000 else raw

theorem bindingScore_nM (raw : ℝ) :
    bindingScore "nM" raw = 1 - Real.log raw / Real.log 50000 := by
  simp [bindingScore]

theorem one_sub_inv_le_log {x : ℝ} (hx : 0 < x) : 1 - x⁻¹ ≤ Real.log x := by
  have h := Real.log_le_sub_one_of_pos (x := x⁻¹) (by positivity)
  rw [Real.log_inv] at h
  linarith

theorem log_500_bounds :
    (6.2143246227 : ℝ) ≤ Real.log 500 ∧ Real.log 500 ≤ (6.2148871272 : ℝ) := by
  have h : (500 : ℝ) = 2 ^ 9 / (128 / 125) := by norm_num
  have he : Real.log 500 = 9 * Real.log 2 - Real.log (128 / 125) := by
    rw [h, Real.log_div (by norm_num) (by norm_num), Real.log_pow]
    push_cast
    ring
  have hub : Real.log (128 / 125 : ℝ) ≤ 3 / 125 := by
    have := Real.log_le_sub_one_of_pos (x := (128 / 125 : ℝ)) (by norm_num)
    linarith
  have hlb : (3 / 128 : ℝ) ≤ Real.log (128 / 125) := by
    have := one_sub_inv_le_log (x := (128 / 125 : ℝ)) (by norm_num)
    norm_num at this
    linarith
  have h2l := Real.log_two_gt_d9
  have h2u := Real.log_two_lt_d9
  constructor
  · rw [he]
    nlinarith
  · rw [he]
    nlinarith

theorem log_100_bounds :
    (4.5720302621 : ℝ) ≤ Real.log 100 ∧ Real.log 100 ≤ (4.6332802656 : ℝ) := by
  have h : (100 : ℝ) = 2 ^ 7 / (32 / 25) := by norm_num
  have he : Real.log 100 = 7 * Real.log 2 - Real.log (32 / 25) := by
    rw [h, Real.log_div (by norm_num) (by norm_num), Real.log_pow]
    push_cast
    ring
  have hub : Real.log (32 / 25 : ℝ) ≤ 7 / 25 := by
    have := Real.log_le_sub_one_of_pos (x := (32 / 25 : ℝ)) (by norm_num)
    linarith
  have hlb : (7 / 32 : ℝ) ≤ Real.log (32 / 25) := by
    have := one_sub_inv_le_log (x := (32 / 25 : ℝ)) (by norm_num)
    norm_num at this
    linarith
  have h2l := Real.log_two_gt_d9
  have h2u := Real.log_two_lt_d9
  constructor
  · rw [he]
    nlinarith
  · rw [he]
    nlinarith

theorem log_50000_bounds :
    (10.7863548848 : ℝ) ≤ Real.log 50000 ∧ Real.log 50000 ≤ (10.8481673928 : ℝ) := by
  have he : Real.log 50000 = Real.log 500 + Real.log 100 := by
    rw [← Real.log_mul (by norm_num) (by norm_num)]
    norm_num
  have h1 := log_500_bounds
  have h2 := log_100_bounds
  constructor
  · rw [he]
    linarith [h1.1, h2.1]
  · rw [he]
    linarith [h1.2, h2.2]

/-- Claim C1 counterexample: with threshold 1250 the metric `nM` is kept by
`load_peptides_options`, a raw minimum score of 0.5 nM is below the
threshold (so the peptide is retained by `_load_peptides`), yet its stored
binding score `1 - ln(0.5)/ln(50000)` is strictly GREATER than 1,
contradicting the claim that every retained peptide's score is at most 1. -/
theorem claimC1_counterexample :
    effectiveVar 1250 "nM" = some "nM"
    ∧ (1 / 2 : ℚ) < 1250
    ∧ 1 < bindingScore "nM" (1 / 2) := by
  refine ⟨by decide, by norm_num, ?_⟩
  have hnum : Real.log (1 / 2 : ℝ) < 0 :=
    Real.log_neg (by norm_num) (by norm_num)
  have hden : 0 < Real.log 50000 := Real.log_pos (by norm_num)
  have : Real.log (1 / 2 : ℝ) / Real.log 50000 < 0 := div_neg_of_neg_of_pos hnum hden
  rw [bindingScore_nM]
  linarith

/-- Claim C1 (amended): for a retained peptide the stored score equals
`1 - ln(raw)/ln(50000)` when the metric is `nM`; that value is at most 1
whenever the raw minimum score is at least 1 nM (not for every retained
peptide), it is strictly decreasing in the raw value on `(0, ∞)`, and the
raw minimum is passed through unchanged under `Rank`/`Rank_NP`.  For a
500 nM peptide the stored score is `1 - ln(500)/ln(50000)`, which lies
strictly between 0.42 and 0.43 (≈ 0.4256, not 0.4246). -/
theorem claimC1_amended :
    (∀ raw : ℝ, 1 ≤ raw → bindingScore "nM" raw ≤ 1)
    ∧ (∀ x y : ℝ, 0 < x → x < y → bindingScore "nM" y < bindingScore "nM" x)
    ∧ (∀ raw : ℝ, bindingScore "Rank" raw = raw)
    ∧ (∀ raw : ℝ, bindingScore "Rank_NP" raw = raw)
    ∧ bindingScore "nM" 500 = 1 - Real.log 500 / Real.log 50000
    ∧ (0.42 : ℝ) < bindingScore "nM" 500
    ∧ bindingScore "nM" 500 < (0.43 : ℝ) := by
  have hden : 0 < Real.log 50000 := Real.log_pos (by norm_num)
  refine ⟨?_, ?_, ?_, ?_, ?_, ?_, ?_⟩
  · intro raw h1
    have hlog : 0 ≤ Real.log raw := Real.log_nonneg h1
    have : 0 ≤ Real.log raw / Real.log 50000 := div_nonneg hlog hden.le
    rw [bindingScore_nM]
    linarith
  · intro x y hx hxy
    have hlog : Real.log x < Real.log y := Real.log_lt_log hx hxy
    have : Real.log x / Real.log 50000 < Real.log y / Real.log 50000 :=
      div_lt_div_of_pos_right hlog hden
    rw [bindingScore_nM, bindingScore_nM]
    linarith
  · intro raw
    have h : ("Rank" : String) ≠ "nM" := by decide
    simp [bindingScore, h]
  · intro raw
    have h : ("Rank_NP" : String) ≠ "nM" := by decide
    simp [bindingScore, h]
  · simp [bindingScore]
  · have h500 := log_500_bounds
    have h50000 := log_50000_bounds
    have hratio : Real.log 500 / Real.log 50000 < (0.58 : ℝ) := by
      rw [div_lt_iff₀ hden]
      nlinarith [h500.2, h50000.1]
    rw [bindingScore_nM]
    linarith
  · have h500 := log_500_bounds
    have h50000 := log_50000_bounds
    have hratio : (0.57 : ℝ) < Real.log 500 / Real.log 50000 := by
      rw [lt_div_iff₀ hden]
      nlinarith [h500.1, h50000.2]
    rw [bindingScore_nM]
    linarith

/-- Witness for the amended C1 at concrete inputs: a 2 nM raw score maps
below 1, the transform is strictly decreasing between 2 and 3, and `Rank`
scores pass through unchanged. -/
theorem claimC1_witness :
    bindingScore "nM" 2 ≤ 1
    ∧ bindingScore "nM" 3 < bindingScore "nM" 2
    ∧ bindingScore "Rank" 7 = 7 :=
  ⟨claimC1_amended.1 2 (by norm_num),
    claimC1_amended.2.1 2 3 (by norm_num) (by norm_num),
    claimC1_amended.2.2.1 7⟩

/-! ## Resampling bins (`TrainingDataset.split_dataset`, lines 261-278)

```
start, end = -10, 10
l = [-np.inf] + list(range(start, end)) + [np.inf]
bins = []
try:
    for x in range(len(l)):
        bins.append((l[x], l[x+1]))
except IndexError:
    pass
numtoix = {x: xi for xi, x in enumerate(range(start, end+1))}
weights = [len(s_exp[(s_exp >= i) & (s_exp < j)])/len(s_exp) for i, j in bins]
getbin = lambda x: bins[numtoix[max(start, min(math.ceil(x), end))]]
ns_norm = ns_exp.apply(getbin)
ns_norm = ns_norm.groupby(ns_norm).count().to_dict()
new_weights = [w/ns_norm[b] if w else 0 for b, w in zip(bins, weights)]
```
Bin edges are `-inf`, the integers -10..9, and `+inf` (`Edge`); the cut
list `l` becomes `binCuts` and `bins` becomes `binsList` (consecutive
pairs).  Rescaled values are `ℚ`.  `ns_norm` is a dict whose keys are
only the bins actually hit by a negative value; looking up a missing key
raises `KeyError`, modelled by `none` in `nsNormCount`/`newWeights`. -/

inductive Edge where
  | ninf : Edge
  | fin : ℤ → Edge
  | pinf : Edge
deriving DecidableEq

def edgeLeB : Edge → ℚ → Bool
  | .ninf, _ => true
  | .pinf, _ => false
  | .fin z, x => decide ((z : ℚ) ≤ x)

def ltEdgeB : ℚ → Edge → Bool
  | _, .ninf => false
  | _, .pinf => true
  | x, .fin z => decide (x < (z : ℚ))

def consecPairs : List Edge → List (Edge × Edge)
  | a :: b :: t => (a, b) :: consecPairs (b :: t)
  | _ => []

def binCuts : List Edge :=
  Edge.ninf :: (((List.range 20).map (fun i => Edge.fin ((i : ℤ) - 10))) ++ [Edge.pinf])

def binsList : List (Edge × Edge) := consecPairs binCuts

def inBinB (x : ℚ) (b : Edge × Edge) : Bool := edgeLeB b.1 x && ltEdgeB x b.2

def weightsOf (s : List ℚ) : List ℚ :=
  binsList.map (fun b => ((s.filter (fun y => inBinB y b)).length : ℚ) / (s.length : ℚ))

def getbinIdx (x : ℚ) : ℕ := (max (-10) (min ⌈x⌉ 10) + 10).toNat

def getbin (x : ℚ) : Edge × Edge := binsList.getD (getbinIdx x) (Edge.ninf, Edge.ninf)

def nsNormCount (ns : List ℚ) (b : Edge × Edge) : Option ℕ :=
  let c := ns.countP (fun y => decide (getbin y = b))
  if c = 0 then none else some c

def traverseOpt : List α → (α → Option β) → Option (List β)
  | [], _ => some []
  | a :: t, f =>
    match f a with
    | none => none
    | some b =>
      match traverseOpt t f with
      | none => none
      | some bs => some (b :: bs)

def newWeights (s ns : List ℚ) : Option (List ℚ) :=
  traverseOpt (binsList.zip (weightsOf s))
    (fun bw => if bw.2 = 0 then some 0 else (nsNormCount ns bw.1).map (fun c => bw.2 / (c : ℚ)))

/-! Partition of `ℚ` by the bins, via the half-open reading
`i ≤ x < j` used by the `weights` comprehension. -/

def Below (a b : Edge) : Prop := ∀ x : ℚ, ltEdgeB x a = true → ltEdgeB x b = true

theorem below_ninf (e : Edge) : Below Edge.ninf e := by
  intro x h
  simp [ltEdgeB] at h

theorem below_pinf (e : Edge) : Below e Edge.pinf := by
  intro x _
  rfl

theorem below_fin {a b : ℤ} (h : a ≤ b) : Below (Edge.fin a) (Edge.fin b) := by
  intro x hx
  simp only [ltEdgeB, decide_eq_true_eq] at hx ⊢
  have hab : (a : ℚ) ≤ b := by exact_mod_cast h
  linarith

theorem edgeLeB_eq_false_of_lt {x : ℚ} {e : Edge} (h : ltEdgeB x e = true) :
    edgeLeB e x = false := by
  cases e with
  | ninf => simp [ltEdgeB] at h
  | pinf => rfl
  | fin z =>
    simp only [ltEdgeB, decide_eq_true_eq] at h
    simp only [edgeLeB, decide_eq_false_iff_not]
    linarith

theorem edgeLeB_eq_true_of_not_lt {x : ℚ} {e : Edge} (h : ltEdgeB x e = false) :
    edgeLeB e x = true := by
  cases e with
  | ninf => rfl
  | pinf => simp [ltEdgeB] at h
  | fin z =>
    simp only [ltEdgeB, decide_eq_false_iff_not, not_lt] at h
    simp only [edgeLeB, decide_eq_true_eq]
    linarith

theorem countP_consecPairs_zero (x : ℚ) :
    ∀ (t : List Edge) (c : Edge), ltEdgeB x c = true → List.Chain' Below (c :: t) →
      (consecPairs (c :: t)).countP (fun b => inBinB x b) = 0 := by
  intro t
  induction t with
  | nil => intro c _ _; rfl
  | cons d t ih =>
    intro c hc hch
    rcases List.chain'_cons.1 hch with ⟨hcd, hch'⟩
    have hd : ltEdgeB x d = true := hcd x hc
    have hfirst : inBinB x (c, d) = false := by
      simp [inBinB, edgeLeB_eq_false_of_lt hc]
    show ((c, d) :: consecPairs (d :: t)).countP (fun b => inBinB x b) = 0
    rw [List.countP_cons, ih d hd hch', hfirst]
    rfl

theorem countP_consecPairs_one (x : ℚ) :
    ∀ (t : List Edge) (lo : Edge), edgeLeB lo x = true → List.Chain' Below (lo :: t) →
      (lo :: t).getLast? = some Edge.pinf →
      (consecPairs (lo :: t)).countP (fun b => inBinB x b) = 1 := by
  intro t
  induction t with
  | nil =>
    intro lo hlo _ hlast
    have : lo = Edge.pinf := by simpa using hlast
    subst this
    simp [edgeLeB] at hlo
  | cons c t ih =>
    intro lo hlo hch hlast
    rcases List.chain'_cons.1 hch with ⟨hlc, hch'⟩
    have hlast' : (c :: t).getLast? = some Edge.pinf := by
      simpa [List.getLast?_cons_cons] using hlast
    show ((lo, c) :: consecPairs (c :: t)).countP (fun b => inBinB x b) = 1
    by_cases hc : ltEdgeB x c = true
    · have hfirst : inBinB x (lo, c) = true := by
        simp [inBinB, hlo, hc]
      rw [List.countP_cons, countP_consecPairs_zero x t c hc hch', hfirst]
      rfl
    · have hc' : ltEdgeB x c = false := by
        cases h : ltEdgeB x c
        · rfl
        · exact absurd h hc
      have hfirst : inBinB x (lo, c) = false := by
        simp [inBinB, hc']
      rw [List.countP_cons, ih c (edgeLeB_eq_true_of_not_lt hc') hch' hlast', hfirst]
      rfl

theorem chain_binCuts : List.Chain' Below binCuts := by
  have h : binCuts =
      [Edge.ninf, Edge.fin (-10), Edge.fin (-9), Edge.fin (-8), Edge.fin (-7),
        Edge.fin (-6), Edge.fin (-5), Edge.fin (-4), Edge.fin (-3), Edge.fin (-2),
        Edge.fin (-1), Edge.fin 0, Edge.fin 1, Edge.fin 2, Edge.fin 3, Edge.fin 4,
        Edge.fin 5, Edge.fin 6, Edge.fin 7, Edge.fin 8, Edge.fin 9, Edge.pinf] := by
    decide
  rw [h]
  simp only [List.chain'_cons, List.chain'_singleton, and_true]
  refine ⟨below_ninf _, ?_, ?_, ?_, ?_, ?_, ?_, ?_, ?_, ?_, ?_, ?_, ?_, ?_, ?_, ?_,
    ?_, ?_, ?_, ?_, below_pinf _⟩ <;> exact below_fin (by norm_num)

theorem binsList_partition (x : ℚ) :
    binsList.countP (fun b => inBinB x b) = 1 := by
  exact countP_consecPairs_one x
    (((List.range 20).map (fun i => Edge.fin ((i : ℤ) - 10))) ++ [Edge.pinf])
    Edge.ninf rfl chain_binCuts (by decide)

/-! Summation helpers for the weight-normalisation property. -/

theorem sum_map_add_nat (f g : α → ℕ) (s : List α) :
    (s.map (fun y => f y + g y)).sum = (s.map f).sum + (s.map g).sum := by
  induction s with
  | nil => rfl
  | cons y t ih => simp [ih]; omega

theorem sum_map_ite_nat (p : α → Bool) (s : List α) :
    (s.map (fun y => if p y then 1 else 0)).sum = (s.filter p).length := by
  induction s with
  | nil => rfl
  | cons y t ih =>
    by_cases h : p y = true
    · simp [h, ih, Nat.add_comm]
    · simp only [Bool.not_eq_true] at h
      simp [h, ih]

theorem sum_map_one_nat (s : List ℚ) : (s.map (fun _ => 1)).sum = s.length := by
  induction s with
  | nil => rfl
  | cons y t ih => simp [ih, Nat.add_comm]

theorem double_count (bs : List β) (s : List α) (p : α → β → Bool) :
    (bs.map (fun b => (s.filter (fun y => p y b)).length)).sum
      = (s.map (fun y => bs.countP (fun b => p y b))).sum := by
  induction bs with
  | nil => simp
  | cons b t ih =>
    simp only [List.map_cons, List.sum_cons, ih]
    have hsplit : (s.map (fun y => (b :: t).countP (fun b' => p y b'))).sum
        = (s.map (fun y => (if p y b then 1 else 0) + t.countP (fun b' => p y b'))).sum := by
      apply congrArg
      apply List.map_congr_left
      intro y _
      rw [List.countP_cons]
      omega
    rw [hsplit, sum_map_add_nat, sum_map_ite_nat]

theorem sum_map_div_rat (f : β → ℚ) (c : ℚ) (l : List β) :
    (l.map (fun b => f b / c)).sum = (l.map f).sum / c := by
  induction l with
  | nil => simp
  | cons b t ih => simp [ih, add_div]

theorem sum_map_natCast_rat (f : β → ℕ) (l : List β) :
    (l.map (fun b => (f b : ℚ))).sum = ((l.map f).sum : ℚ) := by
  induction l with
  | nil => simp
  | cons b t ih => simp [ih]

/-- Claim C8 counterexample: the bin-edge construction of
`split_dataset` yields exactly 21 bins — `(-inf,-10)`, the 19 unit bins
`[-10,-9) … [8,9)`, and `[9,+inf)` — not the 22 bins asserted by the
claim. -/
theorem claimC8_counterexample : binsList.length = 21 ∧ ¬ binsList.length = 22 := by
  decide

/-- Claim C8 (amended): the bin edges define exactly 21 bins (not 22):
`(-∞,-10)`, the unit bins `[-10,-9) … [8,9)`, and the tail bin `[9,+∞)`.
Under the half-open reading `i ≤ x < j` used by the `weights`
comprehension they partition the rationals (every value lies in exactly
one bin), and for every non-empty positive class the per-bin occupancy
fractions sum to exactly 1. -/
theorem claimC8_amended :
    binsList.length = 21
    ∧ (∀ x : ℚ, binsList.countP (fun b => inBinB x b) = 1)
    ∧ (∀ s : List ℚ, s ≠ [] → (weightsOf s).sum = 1) := by
  refine ⟨by decide, binsList_partition, ?_⟩
  intro s hs
  have hn : ((s.length : ℚ)) ≠ 0 :=
    Nat.cast_ne_zero.2 (List.length_pos.2 hs).ne'
  unfold weightsOf
  rw [sum_map_div_rat (fun b => ((s.filter (fun y => inBinB y b)).length : ℚ))
      ((s.length : ℚ)) binsList]
  rw [sum_map_natCast_rat]
  rw [double_count binsList s (fun y b => inBinB y b)]
  have hone : s.map (fun y => binsList.countP (fun b => inBinB y b)) = s.map (fun _ => 1) :=
    List.map_congr_left (fun y _ => binsList_partition y)
  rw [hone, sum_map_one_nat, div_self hn]

/-- Witness for the amended C8: the bin count, the partition property at
the concrete value 7/2, and the weight normalisation for a concrete
two-element positive class. -/
theorem claimC8_witness :
    binsList.length = 21
    ∧ binsList.countP (fun b => inBinB (7 / 2) b) = 1
    ∧ (weightsOf [5 / 2, -3]).sum = 1 :=
  ⟨claimC8_amended.1, claimC8_amended.2.1 (7 / 2),
    claimC8_amended.2.2 [5 / 2, -3] (by decide)⟩

/-! Failure of the weight computation on a positive-only bin. -/

theorem traverseOpt_eq_none (f : α → Option β) (l : List α) (a : α)
    (ha : a ∈ l) (hf : f a = none) : traverseOpt l f = none := by
  induction l with
  | nil => cases ha
  | cons x t ih =>
    rcases List.mem_cons.1 ha with h | h
    · subst h
      simp [traverseOpt, hf]
    · simp only [traverseOpt]
      cases hx : f x
      · rfl
      · rw [ih h]

theorem newWeights_fails (s ns : List ℚ) (b : Edge × Edge) (w : ℚ)
    (hmem : (b, w) ∈ binsList.zip (weightsOf s)) (hw : w ≠ 0)
    (hzero : nsNormCount ns b = none) :
    newWeights s ns = none := by
  apply traverseOpt_eq_none _ _ (b, w) hmem
  simp [hw, hzero]

theorem binsList_literal :
    binsList =
      [(Edge.ninf, Edge.fin (-10)), (Edge.fin (-10), Edge.fin (-9)),
        (Edge.fin (-9), Edge.fin (-8)), (Edge.fin (-8), Edge.fin (-7)),
        (Edge.fin (-7), Edge.fin (-6)), (Edge.fin (-6), Edge.fin (-5)),
        (Edge.fin (-5), Edge.fin (-4)), (Edge.fin (-4), Edge.fin (-3)),
        (Edge.fin (-3), Edge.fin (-2)), (Edge.fin (-2), Edge.fin (-1)),
        (Edge.fin (-1), Edge.fin 0), (Edge.fin 0, Edge.fin 1),
        (Edge.fin 1, Edge.fin 2), (Edge.fin 2, Edge.fin 3),
        (Edge.fin 3, Edge.fin 4), (Edge.fin 4, Edge.fin 5),
        (Edge.fin 5, Edge.fin 6), (Edge.fin 6, Edge.fin 7),
        (Edge.fin 7, Edge.fin 8), (Edge.fin 8, Edge.fin 9),
        (Edge.fin 9, Edge.pinf)] := by
  decide

theorem weightsOf_single_zero :
    weightsOf [0] = [0, 0, 0, 0, 0, 0, 0, 0, 0, 0, 0, 1, 0, 0, 0, 0, 0, 0, 0, 0, 0] := by
  rw [weightsOf, binsList_literal]
  norm_num [inBinB, edgeLeB, ltEdgeB, List.filter]

theorem nsNorm_miss_six : nsNormCount [6] (Edge.fin 0, Edge.fin 1) = none := by
  decide

theorem nsNorm_miss_seven : nsNormCount [7] (Edge.fin 0, Edge.fin 1) = none := by
  decide

theorem mem_zip_single_zero :
    ((Edge.fin 0, Edge.fin 1), (1 : ℚ)) ∈ binsList.zip (weightsOf [0]) := by
  rw [binsList_literal, weightsOf_single_zero]
  norm_num

/-- Claim C5 counterexample: with one positive value 0 (occupying bin
`[0,1)` with fraction 1) and one negative value 6 (hashed by `getbin` to
the single key `(5,6)`), the `new_weights` comprehension evaluates
`ns_norm[(0, 1)]` for a key absent from the dict: the computation raises
`KeyError` (`none`) instead of completing with a zero weight. -/
theorem claimC5_counterexample : newWeights [0] [6] = none :=
  newWeights_fails [0] [6] (Edge.fin 0, Edge.fin 1) 1 mem_zip_single_zero
    (by norm_num) nsNorm_miss_six

/-- Claim C5 (amended): in resampling mode, whenever some bin has nonzero
positive-class occupancy fraction but zero negative-class occupancy, the
per-bin weight computation does NOT complete: it fails with a `KeyError`
(the dict `ns_norm` lacks the bin's key), rather than assigning the bin a
zero weight. -/
theorem claimC5_amended (s ns : List ℚ) (b : Edge × Edge) (w : ℚ)
    (hmem : (b, w) ∈ binsList.zip (weightsOf s)) (hw : w ≠ 0)
    (hzero : nsNormCount ns b = none) :
    newWeights s ns = none :=
  newWeights_fails s ns b w hmem hw hzero

/-- Witness for the amended C5: positive class [0], negative class [7];
bin `[0,1)` has positive fraction 1 and no negatives, and the
computation fails. -/
theorem claimC5_witness : newWeights [0] [7] = none :=
  claimC5_amended [0] [7] (Edge.fin 0, Edge.fin 1) 1 mem_zip_single_zero
    (by norm_num) nsNorm_miss_seven

/-! ## Encoder chunk dispatch and result collection
(`TrainingDataset.encode_peptides`, lines 343-380)

```
chunk_size = 10000
for ix in range(0, len(self.dct_pep[ds][i]), chunk_size):
    pre_meta_lst = self.dct_pep[ds][i][ix:ix+chunk_size]
    meta_lst = [self.peptides[i][pep] for pep in pre_meta_lst]
    self.meta_dct[ds][i].extend(meta_lst)          # dispatch order
    future = ex.submit(self._encode_codon, ..., meta_lst, ...)
    futures[future] = (ds, i, 'codon')
for future in as_completed(futures):
    (ds, i, enc_type) = futures[future]
    enc_lst = future.result()
    if enc_type == 'codon':
        self.enc_dct[ds][i].extend(enc_lst)        # completion order
```
Modelled for one fixed (split, class, encoding-type) bucket; futures of
other buckets extend other lists and cannot interfere.  Records are
numbered and the pure per-record encoder is a parameter `enc`
(the embedding encoders are external collaborators per the spec).
`as_completed` comes from `camaptools.EnhancedFutures`, which is not under
`src/`; modelled from the spec (section 5: "result order does not need to
match dispatch order", "incremental as-completed draining") as yielding
the futures in an arbitrary completion order, given here as the list
`order` of chunk indices.  The collection loop `extend`s the bucket in
completion order; the metadata list is extended at submission time, i.e.
in dispatch order. -/

def chunkSize : ℕ := 10000

def encChunks (bucket : List ℕ) : List (List ℕ) :=
  (List.range ((bucket.length + chunkSize - 1) / chunkSize)).map
    (fun k => (bucket.drop (k * chunkSize)).take chunkSize)

def dispatchMeta (bucket : List ℕ) : List ℕ := (encChunks bucket).flatten

def collectByCompletion (enc : ℕ → ℕ) (bucket : List ℕ) (order : List ℕ) : List ℕ :=
  order.foldl (fun acc j => acc ++ ((encChunks bucket).getD j []).map enc) []

theorem encChunks_two_chunks :
    encChunks (List.replicate chunkSize 0 ++ [1]) = [List.replicate chunkSize 0, [1]] := by
  have hlen : (List.replicate chunkSize (0 : ℕ) ++ [1]).length = 10001 := by
    rw [List.length_append, List.length_replicate]
    decide
  unfold encChunks
  rw [hlen]
  have hdiv : (10001 + chunkSize - 1) / chunkSize = 2 := by decide
  rw [hdiv]
  have hrange : List.range 2 = [0, 1] := by decide
  rw [hrange]
  simp only [List.map_cons, List.map_nil]
  have h0 : ((List.replicate chunkSize (0 : ℕ) ++ [1]).drop (0 * chunkSize)).take chunkSize
      = List.replicate chunkSize 0 := by
    rw [Nat.zero_mul, List.drop_zero]
    have h := List.take_left (List.replicate chunkSize (0 : ℕ)) [1]
    rw [List.length_replicate] at h
    exact h
  have h1 : ((List.replicate chunkSize (0 : ℕ) ++ [1]).drop (1 * chunkSize)).take chunkSize
      = [1] := by
    rw [Nat.one_mul]
    have h := List.drop_left (List.replicate chunkSize (0 : ℕ)) [1]
    rw [List.length_replicate] at h
    rw [h]
    exact List.take_of_length_le (by decide)
  rw [h0, h1]

/-- Claim C3 evaluation at a failing input: one bucket of 10001 records
(so two chunks: records 0..9999 and record 10000, here `replicate 10000 0`
followed by `[1]`), with the second chunk's future completing first
(completion order `[1, 0]`, a permutation of the dispatched chunk
indices).  The collected encoder output is NOT the in-order encoding of
the bucket (its first element is the encoding of the last record), even
though its length matches the bucket's: `extend`-ing the output list in
`as_completed` order scrambles chunk order, while the metadata list built
at submission time stays in dispatch order, so encodings and metadata
disagree — contradicting the claimed order preservation. -/
theorem claimC3_eval :
    collectByCompletion (fun n => n + 1) (List.replicate chunkSize 0 ++ [1]) [1, 0]
        ≠ (dispatchMeta (List.replicate chunkSize 0 ++ [1])).map (fun n => n + 1)
    ∧ (collectByCompletion (fun n => n + 1) (List.replicate chunkSize 0 ++ [1]) [1, 0]).length
        = (List.replicate chunkSize 0 ++ [1]).length
    ∧ List.Perm [1, 0]
        (List.range (encChunks (List.replicate chunkSize 0 ++ [1])).length) := by
  have hc := encChunks_two_chunks
  have hcollect :
      collectByCompletion (fun n => n + 1) (List.replicate chunkSize 0 ++ [1]) [1, 0]
        = 2 :: List.replicate chunkSize 1 := by
    unfold collectByCompletion
    rw [hc]
    simp only [List.foldl_cons, List.foldl_nil, List.getD_cons_succ, List.getD_cons_zero,
      List.map_cons, List.map_nil, List.nil_append, List.map_replicate, List.cons_append]
  have hmeta :
      (dispatchMeta (List.replicate chunkSize 0 ++ [1])).map (fun n => n + 1)
        = List.replicate chunkSize 1 ++ [2] := by
    unfold dispatchMeta
    rw [hc]
    simp only [List.flatten_cons, List.flatten_nil, List.append_nil, List.map_append,
      List.map_replicate, List.map_cons, List.map_nil]
  refine ⟨?_, ?_, ?_⟩
  · rw [hcollect, hmeta]
    intro h
    have hh := congrArg List.head? h
    have hrep : List.replicate chunkSize (1 : ℕ) = 1 :: List.replicate 9999 1 := by
      rw [show chunkSize = 9999 + 1 from rfl, List.replicate_succ]
    rw [hrep, List.cons_append] at hh
    simp only [List.head?_cons] at hh
    exact absurd hh (by decide)
  · rw [hcollect, List.length_cons, List.length_replicate, List.length_append,
      List.length_replicate]
    rfl
  · rw [hc]
    decide

/-! ## SplitNormalizer pre-assignment reconciliation
(`RegressionDataset._split_and_normalize_df`, lines 576-596)

```
nswitch = 0
nremove = 0
split_ratio = 0.3/0.7
if len(ix_train)*split_ratio > len(ix_test):
    nremove = len(ix_train) - int(len(ix_test)/split_ratio)
elif len(ix_train)*split_ratio < len(ix_test):
    nswitch = int((len(ix_test) - len(ix_train)*split_ratio) / (1 + split_ratio))

random.seed = seed
ix_remove = random.sample(range(len(ix_train)), nremove)
random.seed = seed
ix_switch = random.sample(range(len(ix_test)), nswitch)

for e in sorted(ix_remove, reverse=True):
    ix_train.pop(e)
for e in sorted(ix_switch, reverse=True):
    ix_train.append(ix_test.pop(e))
```
`random.seed = seed` ASSIGNS an attribute instead of calling the seeding
function, so the module-level generator is never reseeded; its ambient
state is made explicit as a stream `g : ℕ → ℕ` of raw draws (the `seed`
argument is never consumed, exactly as in the code).  `random.sample`
without replacement is modelled as repeatedly drawing an index into the
remaining pool (`g step % pool.length`); the second `sample` call
continues consuming the same ambient stream.  Only the reconciliation
stage is modelled: the later stratified `train_test_split` and the
min-max scaler are deterministic in `seed`, so any divergence here is a
divergence of the final train/test tables. -/

def sampleIdx (g : ℕ → ℕ) : ℕ → List ℕ → ℕ → List ℕ
  | 0, _, _ => []
  | k + 1, pool, step =>
    if pool.isEmpty then []
    else
      let j := g step % pool.length
      pool.getD j 0 :: sampleIdx g k (pool.eraseIdx j) (step + 1)

def randomSample (g : ℕ → ℕ) (start n k : ℕ) : List ℕ :=
  sampleIdx g k (List.range n) start

def insertDesc (a : ℕ) : List ℕ → List ℕ
  | [] => [a]
  | b :: t => if b < a then a :: b :: t else b :: insertDesc a t

def sortDesc : List ℕ → List ℕ
  | [] => []
  | a :: t => insertDesc a (sortDesc t)

def splitRatioQ : ℚ := (3 / 10) / (7 / 10)

def nremoveOf (ntrain ntest : ℕ) : ℕ :=
  if (ntest : ℚ) < (ntrain : ℚ) * splitRatioQ then
    ntrain - (⌊(ntest : ℚ) / splitRatioQ⌋).toNat
  else 0

def nswitchOf (ntrain ntest : ℕ) : ℕ :=
  if (ntest : ℚ) < (ntrain : ℚ) * splitRatioQ then 0
  else if (ntrain : ℚ) * splitRatioQ < (ntest : ℚ) then
    (⌊((ntest : ℚ) - (ntrain : ℚ) * splitRatioQ) / (1 + splitRatioQ)⌋).toNat
  else 0

def reconcileSplit (g : ℕ → ℕ) (seed : ℕ) (ixTrain ixTest : List ℕ) :
    List ℕ × List ℕ :=
  let nremove := nremoveOf ixTrain.length ixTest.length
  let nswitch := nswitchOf ixTrain.length ixTest.length
  let ixRemove := randomSample g 0 ixTrain.length nremove
  let ixSwitch := randomSample g nremove ixTest.length nswitch
  let train1 := (sortDesc ixRemove).foldl (fun l e => l.eraseIdx e) ixTrain
  (sortDesc ixSwitch).foldl
    (fun p e => (p.1 ++ [p.2.getD e 0], p.2.eraseIdx e)) (train1, ixTest)

theorem nremoveOf_ten_three : nremoveOf 10 3 = 3 := by
  unfold nremoveOf
  rw [if_pos (by norm_num [splitRatioQ])]
  have h : ((3 : ℕ) : ℚ) / splitRatioQ = ((7 : ℤ) : ℚ) := by
    norm_num [splitRatioQ]
  rw [h, Int.floor_intCast]
  decide

theorem nswitchOf_ten_three : nswitchOf 10 3 = 0 := by
  unfold nswitchOf
  rw [if_pos (by norm_num [splitRatioQ])]

theorem reconcile_ambient_zero :
    reconcileSplit (fun _ => 0) 42 (List.range 10) (List.range 3)
      = ([3, 4, 5, 6, 7, 8, 9], [0, 1, 2]) := by
  simp only [reconcileSplit, List.length_range, nremoveOf_ten_three, nswitchOf_ten_three]
  decide

theorem reconcile_ambient_one :
    reconcileSplit (fun _ => 1) 42 (List.range 10) (List.range 3)
      = ([0, 4, 5, 6, 7, 8, 9], [0, 1, 2]) := by
  simp only [reconcileSplit, List.length_range, nremoveOf_ten_three, nswitchOf_ten_three]
  decide

/-- Claim C4 evaluation at a failing input: ten pre-assigned train ids and
three test ids (so three train ids must be trimmed).  Because
`random.seed = seed` on lines 585/587 assigns an attribute instead of
seeding, the trim indices are drawn from the UNSEEDED ambient generator:
with the same seed argument (42) but two different ambient generator
states the reconciled train lists differ ([3..9] versus [0,4..9]), so two
runs are not reproducible from the seed — while changing the seed itself
(42 to 99) provably has no effect at all. -/
theorem claimC4_eval :
    reconcileSplit (fun _ => 0) 42 (List.range 10) (List.range 3)
        ≠ reconcileSplit (fun _ => 1) 42 (List.range 10) (List.range 3)
    ∧ reconcileSplit (fun _ => 0) 42 (List.range 10) (List.range 3)
        = reconcileSplit (fun _ => 0) 99 (List.range 10) (List.range 3) := by
  refine ⟨?_, rfl⟩
  rw [reconcile_ambient_zero, reconcile_ambient_one]
  decide

/-! ## TableOrganizer (`RegressionDataset._organize_data`, lines 468-524)

```
for sns in [0, 1]:
    df_dct = {'Peptide': [], 'BS': [], 'TPM': [], 'CAMAP': defaultdict(list),
              'CAMAPShuff': defaultdict(list)}
    for pep in self.peptides[sns]:
        ...
        for e in expressions:
            df_dct['Peptide'].append(p); df_dct['BS'].append(bs_score)
            df_dct['TPM'].append(np.log10(e))
            for i, v in enumerate(ann_score): df_dct['CAMAP'][i].append(v)
            for i, v in enumerate(ann_shuf_score): df_dct['CAMAPShuff'][i].append(v)
    df_dct['CAMAP'] = [df_dct['CAMAP'][k] for k in sorted(df_dct['CAMAP'])]
    df_dct['CAMAPShuff'] = [...]
    assert len(df_dct['CAMAP']) == len(df_dct['CAMAPShuff'])
    n_replicates = len(df_dct['CAMAP'])
    df_dct['Peptide'] = [df_dct['Peptide']] * n_replicates  # likewise BS, TPM
    for r in range(n_replicates):
        subdct = {c:df_dct[c][r] for c in df_dct}
        df_dictionnaries[sns].append(subdct)
if len(df_dictionnaries[0]) != len(df_dictionnaries[1]):
    if len(df_dictionnaries[0]): assert not len(df_dictionnaries[1])
    if not len(df_dictionnaries[0]): empty, full = 0, 1
    else: empty, full = 1, 0
    for l in df_dictionnaries[full]:
        df_dictionnaries[empty].append(df_dct)     # df_dct = class 1's dict!
```
A peptide entry carries its id, expression list, binding score and
per-replicate CAMAP / CAMAPShuffle scores; `np.log10` (external) is the
parameter `log10`.  Table cells hold scalars (in per-replicate sub-dicts)
or whole row-lists (in the aggregated `df_dct` whose columns were
replicated), captured by `Val`.  The `assert` over replicate counts is
modelled by `none`; the placeholder branch appends the loop-carried
`df_dct`, which is always the dict of CLASS 1 (source) — the aggregated
class-1 dict when class 1 is the non-empty class. -/

inductive Val where
  | nat : ℕ → Val
  | rat : ℚ → Val
  | natList : List ℕ → Val
  | ratList : List ℚ → Val
deriving DecidableEq

structure DfDict where
  Peptide : List Val
  BS : List Val
  TPM : List Val
  CAMAP : List Val
  CAMAPShuff : List Val
deriving DecidableEq

structure PepEntry where
  pid : ℕ
  exprs : List ℚ
  bs : ℚ
  camap : List ℚ
  camapShuff : List ℚ
deriving DecidableEq

def classRows (peps : List PepEntry) : List (PepEntry × ℚ) :=
  peps.flatMap (fun e => e.exprs.map (fun x => (e, x)))

def maxRepl (rows : List (PepEntry × ℚ)) (f : PepEntry → List ℚ) : ℕ :=
  rows.foldr (fun r acc => max (f r.1).length acc) 0

def camapCol (rows : List (PepEntry × ℚ)) (f : PepEntry → List ℚ) (i : ℕ) : List ℚ :=
  rows.filterMap (fun r => (f r.1)[i]?)

def emptyDf : DfDict := ⟨[], [], [], [], []⟩

def organizeClass (log10 : ℚ → ℚ) (peps : List PepEntry) :
    Option (DfDict × List DfDict) :=
  let rows := classRows peps
  let pids := rows.map (fun r => r.1.pid)
  let bss := rows.map (fun r => r.1.bs)
  let tpms := rows.map (fun r => log10 r.2)
  let nr := maxRepl rows (fun e => e.camap)
  let nrs := maxRepl rows (fun e => e.camapShuff)
  if nr = nrs then
    let camapL := (List.range nr).map (fun i => camapCol rows (fun e => e.camap) i)
    let shuffL := (List.range nr).map (fun i => camapCol rows (fun e => e.camapShuff) i)
    let finalDf : DfDict :=
      { Peptide := List.replicate nr (Val.natList pids)
        BS := List.replicate nr (Val.ratList bss)
        TPM := List.replicate nr (Val.ratList tpms)
        CAMAP := camapL.map Val.ratList
        CAMAPShuff := shuffL.map Val.ratList }
    let subs : List DfDict :=
      (List.range nr).map (fun r =>
        { Peptide := pids.map Val.nat
          BS := bss.map Val.rat
          TPM := tpms.map Val.rat
          CAMAP := (camapL.getD r []).map Val.rat
          CAMAPShuff := (shuffL.getD r []).map Val.rat })
    some (finalDf, subs)
  else none

def organizeData (log10 : ℚ → ℚ) (class0 class1 : List PepEntry) :
    Option (List DfDict × List DfDict) :=
  match organizeClass log10 class0, organizeClass log10 class1 with
  | some (_, t0), some (f1, t1) =>
    if t0.length = t1.length then some (t0, t1)
    else if t0.length ≠ 0 ∧ t1.length ≠ 0 then none
    else if t0.length = 0 then some (t1.map (fun _ => f1), t1)
    else some (t0, t0.map (fun _ => f1))
  | _, _ => none

theorem organizeClass_nil (log10 : ℚ → ℚ) :
    organizeClass log10 [] = some (emptyDf, []) := rfl

/-- Claim C9 counterexample: with the NONSOURCE class (index 0) completely
empty and a source class of one peptide with one replicate, the class-0
placeholder appended by `_organize_data` is the source class's AGGREGATED
dict `df_dct` (whose columns were replicated into row-lists), so its
`Peptide` column has length 1 (one entry per replicate), not 0 rows as
the claim asserts. -/
theorem claimC9_counterexample :
    (organizeData (fun q => q) [] [⟨1, [1], 1, [1], [1]⟩]).map
        (fun r => r.1.map (fun t => t.Peptide.length)) = some [1]
    ∧ some [1] ≠ some ([0] : List ℕ) := by
  constructor
  · decide
  · decide

/-- Claim C9 (amended): when exactly one class is completely empty,
`_organize_data` produces for the empty class the same number of
per-replicate tables as the non-empty class, each placeholder having the
same column set (Peptide, BS, TPM, CAMAP, CAMAPShuff); the placeholder
tables have zero rows when the empty class is the SOURCE class (class 1,
whose all-empty `df_dct` is the loop-carried dict being appended), but
when the empty class is the nonsource class (class 0) the placeholder is
the source class's aggregated dict with one row-list entry per replicate
per column, not zero rows. -/
theorem claimC9_amended (log10 : ℚ → ℚ) (c0 : List PepEntry) (f0 : DfDict)
    (t0 : List DfDict) (h0 : organizeClass log10 c0 = some (f0, t0))
    (hne : t0 ≠ []) :
    organizeData log10 c0 [] = some (t0, t0.map (fun _ => emptyDf))
    ∧ emptyDf.Peptide.length = 0 ∧ emptyDf.BS.length = 0 ∧ emptyDf.TPM.length = 0
    ∧ emptyDf.CAMAP.length = 0 ∧ emptyDf.CAMAPShuff.length = 0
    ∧ (t0.map (fun _ => emptyDf)).length = t0.length := by
  have hlen : ¬ t0.length = 0 := by
    simpa [List.length_eq_zero] using hne
  simp only [organizeData, h0, organizeClass_nil, List.length_nil]
  rw [if_neg hlen, if_neg (by simp), if_neg hlen]
  exact ⟨rfl, rfl, rfl, rfl, rfl, rfl, List.length_map _ _⟩

/-- Witness for the amended C9: source class (1) empty, nonsource class a
single one-replicate peptide; the class-1 placeholder list is one copy of
the all-empty table, which has zero rows and the five standard columns. -/
theorem claimC9_witness :
    organizeData (fun q => q) [⟨2, [1], 1, [1], [1]⟩] []
        = some ([⟨[Val.nat 2], [Val.rat 1], [Val.rat 1], [Val.rat 1], [Val.rat 1]⟩],
            [emptyDf])
    ∧ emptyDf.Peptide.length = 0 := by
  have h := claimC9_amended (fun q => q) [⟨2, [1], 1, [1], [1]⟩]
    ⟨[Val.natList [2]], [Val.ratList [1]], [Val.ratList [1]], [Val.ratList [1]],
      [Val.ratList [1]]⟩
    [⟨[Val.nat 2], [Val.rat 1], [Val.rat 1], [Val.rat 1], [Val.rat 1]⟩]
    (by decide) (by decide)
  exact ⟨h.1.trans (by decide), h.2.1⟩

/-! ## Plain-mode dataset splitting (`TrainingDataset.split_dataset`, lines 291-315)

```
ratio = len(peplist_source)*ratio/len(peplist_nonsource)
ratio = min(ratio, 1)
if ratio == 1:
    keep = peplist_nonsource
else:
    discard, keep = train_test_split(peplist_nonsource, test_size=ratio, random_state=seed)

dct_pep['train'][0], pre_test = train_test_split(keep, test_size=0.4, random_state=seed)
dct_pep['validation'][0], dct_pep['test'][0] = train_test_split(pre_test, test_size=0.5, random_state=seed)
dct_pep['train'][1], pre_test = train_test_split(peplist_source, test_size=0.4, random_state=seed)
dct_pep['validation'][1], dct_pep['test'][1] = train_test_split(pre_test, test_size=0.5, random_state=seed)
```
`sklearn.model_selection.train_test_split` is third-party code, modelled
from its documented behaviour: with a float `test_size` it draws a seeded
permutation of the input and returns `(train, test) =
(perm[n_test:], perm[:n_test])` where `n_test = ceil(test_size * n)`.
The seeded permutation is the parameter `shuffle : seed → list →
permuted list`; theorems assume only that it permutes its input.  Every
call in `split_dataset` passes the same `seed`. -/

def nTestCount (f : ℚ) (n : ℕ) : ℕ := (⌈f * (n : ℚ)⌉).toNat

def trainTestSplit (perm : List ℕ → List ℕ) (l : List ℕ) (f : ℚ) :
    List ℕ × List ℕ :=
  ((perm l).drop (nTestCount f l.length), (perm l).take (nTestCount f l.length))

def keptNonsource (shuffle : ℕ → List ℕ → List ℕ) (seed : ℕ) (r : ℚ)
    (pos neg : List ℕ) : List ℕ :=
  if min (r * (pos.length : ℚ) / (neg.length : ℚ)) 1 = 1 then neg
  else (trainTestSplit (shuffle seed) neg
    (min (r * (pos.length : ℚ) / (neg.length : ℚ)) 1)).2

structure SplitAssign where
  train0 : List ℕ
  val0 : List ℕ
  test0 : List ℕ
  train1 : List ℕ
  val1 : List ℕ
  test1 : List ℕ
deriving DecidableEq

def splitDatasetPlain (shuffle : ℕ → List ℕ → List ℕ) (seed : ℕ) (r : ℚ)
    (pos neg : List ℕ) : SplitAssign :=
  ⟨(trainTestSplit (shuffle seed) (keptNonsource shuffle seed r pos neg) (2/5)).1,
   (trainTestSplit (shuffle seed)
     (trainTestSplit (shuffle seed) (keptNonsource shuffle seed r pos neg) (2/5)).2 (1/2)).1,
   (trainTestSplit (shuffle seed)
     (trainTestSplit (shuffle seed) (keptNonsource shuffle seed r pos neg) (2/5)).2 (1/2)).2,
   (trainTestSplit (shuffle seed) pos (2/5)).1,
   (trainTestSplit (shuffle seed) (trainTestSplit (shuffle seed) pos (2/5)).2 (1/2)).1,
   (trainTestSplit (shuffle seed) (trainTestSplit (shuffle seed) pos (2/5)).2 (1/2)).2⟩

theorem two_stage (perm : List ℕ → List ℕ) (hperm : ∀ l, List.Perm (perm l) l)
    (K : List ℕ) (j : ℕ) (hj : K.length = 5 * j) :
    (trainTestSplit perm K (2/5)).1.length = 3 * j
    ∧ (trainTestSplit perm (trainTestSplit perm K (2/5)).2 (1/2)).1.length = j
    ∧ (trainTestSplit perm (trainTestSplit perm K (2/5)).2 (1/2)).2.length = j
    ∧ List.Perm ((trainTestSplit perm K (2/5)).1
        ++ ((trainTestSplit perm (trainTestSplit perm K (2/5)).2 (1/2)).1
          ++ (trainTestSplit perm (trainTestSplit perm K (2/5)).2 (1/2)).2)) K := by
  have hpK : (perm K).length = K.length := (hperm K).length_eq
  have hk1 : nTestCount (2/5) K.length = 2 * j := by
    unfold nTestCount
    rw [hj]
    have h : (2/5 : ℚ) * ((5 * j : ℕ) : ℚ) = ((2 * j : ℕ) : ℚ) := by
      push_cast
      ring
    rw [h, Int.ceil_natCast, Int.toNat_natCast]
  have hpre : (trainTestSplit perm K (2/5)).2.length = 2 * j := by
    show ((perm K).take (nTestCount (2/5) K.length)).length = 2 * j
    rw [List.length_take, hpK, hk1, hj]
    omega
  have hk2 : nTestCount (1/2) (trainTestSplit perm K (2/5)).2.length = j := by
    rw [hpre]
    unfold nTestCount
    have h : (1/2 : ℚ) * ((2 * j : ℕ) : ℚ) = ((j : ℕ) : ℚ) := by
      push_cast
      ring
    rw [h, Int.ceil_natCast, Int.toNat_natCast]
  have hppre : (perm (trainTestSplit perm K (2/5)).2).length = 2 * j := by
    rw [(hperm _).length_eq, hpre]
  refine ⟨?_, ?_, ?_, ?_⟩
  · show ((perm K).drop (nTestCount (2/5) K.length)).length = 3 * j
    rw [List.length_drop, hpK, hk1, hj]
    omega
  · show ((perm (trainTestSplit perm K (2/5)).2).drop
        (nTestCount (1/2) (trainTestSplit perm K (2/5)).2.length)).length = j
    rw [List.length_drop, hppre, hk2]
    omega
  · show ((perm (trainTestSplit perm K (2/5)).2).take
        (nTestCount (1/2) (trainTestSplit perm K (2/5)).2.length)).length = j
    rw [List.length_take, hppre, hk2]
    omega
  · have hvt : List.Perm
        ((trainTestSplit perm (trainTestSplit perm K (2/5)).2 (1/2)).1
          ++ (trainTestSplit perm (trainTestSplit perm K (2/5)).2 (1/2)).2)
        (trainTestSplit perm K (2/5)).2 := by
      refine List.Perm.trans List.perm_append_comm ?_
      show ((perm (trainTestSplit perm K (2/5)).2).take
            (nTestCount (1/2) (trainTestSplit perm K (2/5)).2.length)
          ++ (perm (trainTestSplit perm K (2/5)).2).drop
            (nTestCount (1/2) (trainTestSplit perm K (2/5)).2.length)).Perm
          (trainTestSplit perm K (2/5)).2
      rw [List.take_append_drop]
      exact hperm _
    refine List.Perm.trans (List.Perm.append_left _ hvt) ?_
    refine List.Perm.trans List.perm_append_comm ?_
    show ((perm K).take (nTestCount (2/5) K.length)
        ++ (perm K).drop (nTestCount (2/5) K.length)).Perm K
    rw [List.take_append_drop]
    exact hperm _

/-- Claim C6: in plain (non-resampling) mode with finite ratio whose
product with the positive count is the integer `m`, `split_dataset` keeps
exactly `min m (number of negatives)` negatives (with 100 positives, 300
negatives and ratio 3 the cap is 300 = all of them), and then, whenever
the kept negative list and the positive list have sizes divisible by 5,
splits each class independently (with the same seed) into exactly 60%
train / 20% validation / 20% test via the two-stage split (0.4 held out,
then 0.5/0.5), each class's three buckets together being a permutation of
that class's kept list. -/
theorem claimC6 (shuffle : ℕ → List ℕ → List ℕ) (seed : ℕ) (r : ℚ)
    (pos neg : List ℕ) (m : ℕ)
    (hshuf : ∀ s l, List.Perm (shuffle s l) l)
    (hne : neg ≠ [])
    (hm : r * (pos.length : ℚ) = (m : ℚ))
    (h5k : 5 ∣ (keptNonsource shuffle seed r pos neg).length)
    (h5p : 5 ∣ pos.length) :
    (keptNonsource shuffle seed r pos neg).length = min m neg.length
    ∧ (splitDatasetPlain shuffle seed r pos neg).train0.length
        = 3 * ((keptNonsource shuffle seed r pos neg).length / 5)
    ∧ (splitDatasetPlain shuffle seed r pos neg).val0.length
        = (keptNonsource shuffle seed r pos neg).length / 5
    ∧ (splitDatasetPlain shuffle seed r pos neg).test0.length
        = (keptNonsource shuffle seed r pos neg).length / 5
    ∧ (splitDatasetPlain shuffle seed r pos neg).train1.length = 3 * (pos.length / 5)
    ∧ (splitDatasetPlain shuffle seed r pos neg).val1.length = pos.length / 5
    ∧ (splitDatasetPlain shuffle seed r pos neg).test1.length = pos.length / 5
    ∧ List.Perm ((splitDatasetPlain shuffle seed r pos neg).train0
        ++ ((splitDatasetPlain shuffle seed r pos neg).val0
          ++ (splitDatasetPlain shuffle seed r pos neg).test0))
        (keptNonsource shuffle seed r pos neg)
    ∧ List.Perm ((splitDatasetPlain shuffle seed r pos neg).train1
        ++ ((splitDatasetPlain shuffle seed r pos neg).val1
          ++ (splitDatasetPlain shuffle seed r pos neg).test1)) pos := by
  have hn0 : (0 : ℚ) < (neg.length : ℚ) := by
    have h := List.length_pos.2 hne
    exact_mod_cast h
  have hkept : (keptNonsource shuffle seed r pos neg).length = min m neg.length := by
    by_cases h1 : min (r * (pos.length : ℚ) / (neg.length : ℚ)) 1 = 1
    · have hkeq : keptNonsource shuffle seed r pos neg = neg := by
        unfold keptNonsource
        rw [if_pos h1]
      have hge : (1 : ℚ) ≤ r * (pos.length : ℚ) / (neg.length : ℚ) :=
        min_eq_right_iff.1 h1
      rw [hm] at hge
      have hnm : neg.length ≤ m := by
        have h2 : (neg.length : ℚ) ≤ (m : ℚ) := (one_le_div hn0).1 hge
        exact_mod_cast h2
      rw [hkeq, min_eq_right hnm]
    · have hxlt : r * (pos.length : ℚ) / (neg.length : ℚ) < 1 := by
        rcases lt_or_le (r * (pos.length : ℚ) / (neg.length : ℚ)) 1 with h | h
        · exact h
        · exact absurd (min_eq_right h) h1
      have hmin : min (r * (pos.length : ℚ) / (neg.length : ℚ)) 1
          = r * (pos.length : ℚ) / (neg.length : ℚ) := min_eq_left hxlt.le
      have hkeq : keptNonsource shuffle seed r pos neg
          = ((shuffle seed) neg).take
              (nTestCount (r * (pos.length : ℚ) / (neg.length : ℚ)) neg.length) := by
        unfold keptNonsource
        rw [if_neg h1, hmin]
        rfl
      have hk : nTestCount (r * (pos.length : ℚ) / (neg.length : ℚ)) neg.length = m := by
        unfold nTestCount
        have h : r * (pos.length : ℚ) / (neg.length : ℚ) * (neg.length : ℚ) = ((m : ℕ) : ℚ) := by
          rw [div_mul_cancel₀ _ hn0.ne', hm]
        rw [h, Int.ceil_natCast, Int.toNat_natCast]
      rw [hkeq, List.length_take, hk, (hshuf seed neg).length_eq]
  obtain ⟨j, hj⟩ := h5k
  obtain ⟨i, hi⟩ := h5p
  have h0 := two_stage (shuffle seed) (hshuf seed) (keptNonsource shuffle seed r pos neg) j hj
  have h1 := two_stage (shuffle seed) (hshuf seed) pos i hi
  have hjdiv : (keptNonsource shuffle seed r pos neg).length / 5 = j := by omega
  have hidiv : pos.length / 5 = i := by omega
  rw [hjdiv, hidiv]
  exact ⟨hkept, h0.1, h0.2.1, h0.2.2.1, h1.1, h1.2.1, h1.2.2.1, h0.2.2.2, h1.2.2.2⟩

/-- Witness for C6 at the spec's scenario: 100 positives, 300 negatives,
ratio 3 (so ratio x positives = 300 = all negatives, nothing discarded),
identity shuffle, seed 0: the kept-negative count is min 300 300 and the
two classes split 180/60/60 and 60/20/20. -/
theorem claimC6_witness :
    (keptNonsource (fun _ l => l) 0 3 (List.range 100) (List.range 300)).length
        = min 300 (List.range 300).length
    ∧ (splitDatasetPlain (fun _ l => l) 0 3 (List.range 100) (List.range 300)).train0.length
        = 3 * ((keptNonsource (fun _ l => l) 0 3 (List.range 100) (List.range 300)).length / 5)
    ∧ (splitDatasetPlain (fun _ l => l) 0 3 (List.range 100) (List.range 300)).val0.length
        = (keptNonsource (fun _ l => l) 0 3 (List.range 100) (List.range 300)).length / 5
    ∧ (splitDatasetPlain (fun _ l => l) 0 3 (List.range 100) (List.range 300)).train1.length
        = 3 * ((List.range 100).length / 5)
    ∧ (splitDatasetPlain (fun _ l => l) 0 3 (List.range 100) (List.range 300)).test1.length
        = (List.range 100).length / 5 := by
  have hkeq : keptNonsource (fun _ l => l) 0 3 (List.range 100) (List.range 300)
      = List.range 300 := by
    unfold keptNonsource
    rw [if_pos ?hc]
    case hc =>
      simp only [List.length_range]
      norm_num
  have h5k : 5 ∣ (keptNonsource (fun _ l => l) 0 3 (List.range 100) (List.range 300)).length := by
    rw [hkeq, List.length_range]
    exact ⟨60, rfl⟩
  have h := claimC6 (fun _ l => l) 0 3 (List.range 100) (List.range 300) 300
    (fun _ l => List.Perm.refl l)
    (by simp)
    (by simp only [List.length_range]; norm_num)
    h5k
    (by rw [List.length_range]; exact ⟨20, rfl⟩)
  exact ⟨h.1, h.2.1, h.2.2.1, h.2.2.2.2.1, h.2.2.2.2.2.2.1⟩

end CAMAP
